import Mathlib

/-!
Verification of the OAuth token lifecycle and API-client layer of a
Spotify listening-insights application, shallowly embedded in Lean 4.

Conventions of the embedding:
* Time instants are modelled as integers (seconds since epoch); the Python
  code uses `time.time()` floats, but every property proved here is
  order-theoretic and holds over any linearly ordered field as well.
* Python dictionaries holding token data are modelled as a record of
  optional fields (`TokenRecord`); a missing dictionary key is `none`.
* The durable token file is modelled as `Option String`: `none` when the
  file does not exist, `some s` when it exists with content `s`.
* HTTP calls performed by `requests`/`spotipy` are oracles passed in as
  explicit arguments; exceptions become `Except`/`Option` results.
-/

namespace SpotifyInsights

/-- Characters that the JSON grammar treats specially, defined via code
points so they never appear as literals. -/
def dquoteChar : Char := Char.ofNat 34

def bslashChar : Char := Char.ofNat 92

def lbraceChar : Char := Char.ofNat 123

def rbraceChar : Char := Char.ofNat 125

/-- Whitespace characters accepted by `json.loads` between tokens. -/
def isWsChar (c : Char) : Bool := c = ' ' || c = '\n' || c = '\t' || c = '\r'

/-- Drop leading JSON whitespace. -/
def skipWs : List Char → List Char
  | [] => []
  | c :: cs => if isWsChar c then skipWs cs else c :: cs

/-! ### Decimal digits

`json.dump` writes integers in ordinary decimal notation and `json.load`
reads them back.  We implement both directions with fuel-based structural
recursion so that every definition reduces inside the kernel. -/

/-- The decimal digit character for `d % 10`. -/
def digitChar : Nat → Char
  | 0 => '0' | 1 => '1' | 2 => '2' | 3 => '3' | 4 => '4'
  | 5 => '5' | 6 => '6' | 7 => '7' | 8 => '8' | _ => '9'

def isDigitChar (c : Char) : Bool := 48 ≤ c.toNat && c.toNat ≤ 57

/-- Decimal digits of `n`, most significant first; `fuel` bounds recursion
depth (any `fuel > n` is enough). -/
def natDigitsAux : Nat → Nat → List Char
  | 0, _ => []
  | fuel + 1, n =>
    if n < 10 then [digitChar n]
    else natDigitsAux fuel (n / 10) ++ [digitChar (n % 10)]

def natDigits (n : Nat) : List Char := natDigitsAux (n + 1) n

/-- Value of a digit string, most significant first. -/
def digitsToNat (ds : List Char) : Nat :=
  ds.foldl (fun a c => 10 * a + (c.toNat - 48)) 0

/-- Decimal rendering of an integer, as written by `json.dump`. -/
def intDigits (i : Int) : List Char :=
  if i < 0 then '-' :: natDigits (-i).toNat else natDigits i.toNat

/-! ### JSON values

The token file only ever holds a flat object whose values are strings and
numbers, so the embedded JSON value type has just those two shapes.
`expires_at` is modelled in whole seconds (integer), see the header. -/

inductive JVal where
  | jstr (s : String)
  | jint (i : Int)
deriving DecidableEq

/-- Escaping applied by `json.dump` to string contents.  The quote and
backslash escapes are modelled; `\uXXXX` escaping of control and
non-ASCII characters (CPython's `ensure_ascii`) is not — both sides of
that encoding are inverse to each other in CPython just as the identity
used here is, so round-trip statements are unaffected. -/
def escapeStr : List Char → List Char
  | [] => []
  | c :: cs =>
    (if c = dquoteChar || c = bslashChar then [bslashChar, c] else [c]) ++ escapeStr cs

/-- A JSON string literal: quote, escaped contents, quote. -/
def dumpJStr (s : String) : List Char :=
  dquoteChar :: (escapeStr s.data ++ [dquoteChar])

def dumpJVal : JVal → List Char
  | .jstr s => dumpJStr s
  | .jint i => intDigits i

/-- One `"key": value` member as laid out by `json.dump(..., indent=2)`. -/
def dumpKV (kv : String × JVal) : List Char :=
  dumpJStr kv.1 ++ ':' :: ' ' :: dumpJVal kv.2

/-- Members joined by `",\n  "` (the separator `json.dump` uses when
`indent=2` is given). -/
def dumpMembers : List (String × JVal) → List Char
  | [] => []
  | [kv] => dumpKV kv
  | kv :: kvs => dumpKV kv ++ ',' :: '\n' :: ' ' :: ' ' :: dumpMembers kvs

/-- A whole object: `{}` when empty, otherwise `{\n  members\n}` exactly as
`json.dump(d, f, indent=2)` writes it. -/
def dumpObj : List (String × JVal) → List Char
  | [] => [lbraceChar, rbraceChar]
  | kv :: kvs =>
    lbraceChar :: '\n' :: ' ' :: ' ' :: (dumpMembers (kv :: kvs) ++ ['\n', rbraceChar])

/-! ### JSON parsing (`json.load`)

A recursive-descent parser for the same flat-object grammar.  Parse
failure is `none`; `load_tokens` maps it to "absent", mirroring the
`except (json.JSONDecodeError, IOError): return None` in the source. -/

/-- Inverse of the modelled escapes.  Escape sequences `json.loads`
accepts but `json.dump` never emits for our records (`\n`, `\uXXXX`, ...)
are rejected, which only sends more malformed-or-exotic inputs to the
"corrupt, treat as absent" branch. -/
def unescapeChar (e : Char) : Option Char :=
  if e = dquoteChar then some dquoteChar
  else if e = bslashChar then some bslashChar
  else none

/-- Scan a string literal after the opening quote; returns the contents
and the remainder after the closing quote. -/
def scanStr : List Char → Option (List Char × List Char)
  | [] => none
  | c :: cs =>
    if c = dquoteChar then some ([], cs)
    else if c = bslashChar then
      match cs with
      | [] => none
      | e :: cs2 =>
        match unescapeChar e with
        | none => none
        | some d => (scanStr cs2).map (fun p => (d :: p.1, p.2))
    else (scanStr cs).map (fun p => (c :: p.1, p.2))

/-- Parse a nonempty run of decimal digits. -/
def parseNatTok (cs : List Char) : Option (Nat × List Char) :=
  match cs.takeWhile isDigitChar with
  | [] => none
  | ds => some (digitsToNat ds, cs.dropWhile isDigitChar)

/-- True when the input does not continue with a decimal digit — the
condition under which a digit run just parsed cannot extend further. -/
def headNotDigit : List Char → Bool
  | [] => true
  | c :: _ => !(isDigitChar c)

/-- Parse an optionally negated decimal integer. -/
def parseIntTok (cs : List Char) : Option (Int × List Char) :=
  match cs with
  | [] => none
  | c :: cs1 =>
    if c = '-' then (parseNatTok cs1).map (fun p => (-(p.1 : Int), p.2))
    else (parseNatTok cs).map (fun p => ((p.1 : Int), p.2))

/-- Parse a JSON value of the two shapes the token file uses. -/
def parseJVal (cs : List Char) : Option (JVal × List Char) :=
  match cs with
  | [] => none
  | c :: cs1 =>
    if c = dquoteChar then
      (scanStr cs1).map (fun p => (JVal.jstr (String.mk p.1), p.2))
    else (parseIntTok cs).map (fun p => (JVal.jint p.1, p.2))

/-- Parse one `"key": value` member, tolerating leading whitespace. -/
def parseMember (cs : List Char) : Option (String × JVal × List Char) :=
  match skipWs cs with
  | [] => none
  | c :: cs1 =>
    if c = dquoteChar then
      match scanStr cs1 with
      | none => none
      | some (k, cs2) =>
        match skipWs cs2 with
        | [] => none
        | c3 :: cs3 =>
          if c3 = ':' then
            (parseJVal (skipWs cs3)).map (fun p => (String.mk k, p.1, p.2))
          else none
    else none

/-- Parse a comma-separated member list up to and including the closing
brace.  `fuel` bounds the number of members (callers pass the input
length, which always suffices because each member is at least one
character long). -/
def parseMembersFuel : Nat → List Char → Option (List (String × JVal) × List Char)
  | 0, _ => none
  | fuel + 1, cs =>
    match parseMember cs with
    | none => none
    | some (k, v, rest) =>
      match skipWs rest with
      | [] => none
      | c :: rest2 =>
        if c = ',' then
          (parseMembersFuel fuel rest2).map (fun p => ((k, v) :: p.1, p.2))
        else if c = rbraceChar then some ([(k, v)], rest2)
        else none

/-- Parse a whole object from the front of the input. -/
def parseObjTop (cs : List Char) : Option (List (String × JVal) × List Char) :=
  match skipWs cs with
  | [] => none
  | c :: cs1 =>
    if c = lbraceChar then
      match skipWs cs1 with
      | [] => none
      | c2 :: cs2 =>
        if c2 = rbraceChar then some ([], cs2)
        else parseMembersFuel (cs1.length + 1) cs1
    else none

/-! ### The token record and the token store

`TokenRecord` embeds the token dictionary (`src/auth.py`): each Python
dictionary key becomes an optional field; a key that is absent from the
dictionary is `none`. -/

structure TokenRecord where
  access_token : Option String
  token_type : Option String
  scope : Option String
  expires_in : Option Int
  refresh_token : Option String
  expires_at : Option Int
deriving DecidableEq

/-- `if not token_data:` in Python is true for an *empty* dictionary as
well as for `None`; an empty dictionary is the record with no fields. -/
def TokenRecord.isEmpty (t : TokenRecord) : Bool :=
  t.access_token.isNone && t.token_type.isNone && t.scope.isNone &&
    t.expires_in.isNone && t.refresh_token.isNone && t.expires_at.isNone

def optField (k : String) : Option JVal → List (String × JVal)
  | none => []
  | some v => [(k, v)]

/-- The dictionary entries of a record, in the fixed field order used for
serialization (round-trip results do not depend on the order). -/
def toPairs (t : TokenRecord) : List (String × JVal) :=
  optField "access_token" (t.access_token.map .jstr) ++
  optField "token_type" (t.token_type.map .jstr) ++
  optField "scope" (t.scope.map .jstr) ++
  optField "expires_in" (t.expires_in.map .jint) ++
  optField "refresh_token" (t.refresh_token.map .jstr) ++
  optField "expires_at" (t.expires_at.map .jint)

def lookupKey (kvs : List (String × JVal)) (k : String) : Option JVal :=
  (kvs.find? (fun p => p.1 == k)).map (fun p => p.2)

def asStr : Option JVal → Option String
  | some (.jstr s) => some s
  | _ => none

def asInt : Option JVal → Option Int
  | some (.jint i) => some i
  | _ => none

/-- Rebuild the record from parsed dictionary entries (first occurrence
of each key wins, as in a Python dict built by insertion). -/
def fromPairs (kvs : List (String × JVal)) : TokenRecord where
  access_token := asStr (lookupKey kvs "access_token")
  token_type := asStr (lookupKey kvs "token_type")
  scope := asStr (lookupKey kvs "scope")
  expires_in := asInt (lookupKey kvs "expires_in")
  refresh_token := asStr (lookupKey kvs "refresh_token")
  expires_at := asInt (lookupKey kvs "expires_at")

/-- `save_tokens` (src/auth.py:143-154): serializes the token dictionary
with `json.dump(token_data, f, indent=2)`.  The result is the new content
of the token file. -/
def save_tokens (t : TokenRecord) : String :=
  String.mk (dumpObj (toPairs t))

/-- `json.loads` of a candidate token-file content: a full object with
nothing but whitespace after it. -/
def parseTokens (s : String) : Option TokenRecord :=
  match parseObjTop s.data with
  | none => none
  | some (kvs, rest) => if skipWs rest = [] then some (fromPairs kvs) else none

/-- `load_tokens` (src/auth.py:157-174): `none` when the file does not
exist, and `none` when its content fails to parse (`except
(json.JSONDecodeError, IOError): return None`); never an exception. -/
def load_tokens (fs : Option String) : Option TokenRecord :=
  match fs with
  | none => none
  | some s => parseTokens s

/-! ### Token expiry and refresh (`src/auth.py`) -/

/-- `is_token_expired` (src/auth.py:177-188):
`time.time() >= (expires_at - 60)` with `expires_at = token_data.get("expires_at", 0)`.
`now` is the current clock reading. -/
def is_token_expired (now : Int) (t : TokenRecord) : Bool :=
  t.expires_at.getD 0 - 60 ≤ now

/-- Body of the provider's response to a refresh-token exchange, one
optional field per JSON key the code reads. -/
structure RefreshResponseBody where
  access_token : Option String
  token_type : Option String
  scope : Option String
  expires_in : Option Int
  refresh_token : Option String
deriving DecidableEq

/-- `refresh_access_token` (src/auth.py:191-225).  The HTTP POST is an
oracle: `.error ()` is a network-level `requests.RequestException`, and
`.ok (status, body)` a response; `response.raise_for_status()` turns a
4xx/5xx status into an exception too.  On success the returned record is
the response body, with the caller's refresh token carried forward when
the body has none, and `expires_at = now + expires_in` (default 3600). -/
def refresh_access_token (refreshToken : String) (now : Int)
    (http : Except Unit (Nat × RefreshResponseBody)) : Except Unit TokenRecord :=
  match http with
  | .error _ => .error ()
  | .ok (status, body) =>
    if 400 ≤ status ∧ status < 600 then .error ()
    else
      .ok { access_token := body.access_token
            token_type := body.token_type
            scope := body.scope
            expires_in := body.expires_in
            refresh_token :=
              match body.refresh_token with
              | some rt => some rt
              | none => some refreshToken
            expires_at := some (now + body.expires_in.getD 3600) }

/-- The error cases `get_valid_token` can raise (all `ValueError` in
Python, distinguished here by their message; `keyError` is the `KeyError`
a record without an `access_token` key would raise). -/
inductive AuthError where
  | noToken
  | noRefreshToken
  | refreshFailed
  | keyError
deriving DecidableEq

/-- `get_valid_token` (src/auth.py:228-256) over an explicit token-file
state `fs` and refresh oracle `http`.  Returns the outcome together with
the token-file state after the call (the only write is the
`save_tokens` on the successful-refresh path). -/
def get_valid_token (now : Int) (fs : Option String)
    (http : Except Unit (Nat × RefreshResponseBody)) :
    Except AuthError String × Option String :=
  match load_tokens fs with
  | none => (.error .noToken, fs)
  | some t =>
    if t.isEmpty then (.error .noToken, fs)
    else if is_token_expired now t then
      match t.refresh_token with
      | none => (.error .noRefreshToken, fs)
      | some rt =>
        match refresh_access_token rt now http with
        | .error _ => (.error .refreshFailed, fs)
        | .ok t2 =>
          let fs2 := some (save_tokens t2)
          match t2.access_token with
          | some a => (.ok a, fs2)
          | none => (.error .keyError, fs2)
    else
      match t.access_token with
      | some a => (.ok a, fs)
      | none => (.error .keyError, fs)

/-! ### Redirect-URL parsing (`extract_code_from_url`, src/auth.py:118-140)

The source uses `urllib.parse.urlparse` and `parse_qs`.  Both are
re-implemented here on `List Char`: `urlsplit` strips the fragment at the
first `#`, then takes the query after the first `?`; `parse_qs` splits on
`&`, keeps only fields with an `=` and a nonempty value (the default
`keep_blank_values=False`), and percent-plus-decodes names and values. -/

def splitOnCharAux (sep : Char) : List Char → List Char → List (List Char)
  | [], acc => [acc.reverse]
  | c :: cs, acc =>
    if c = sep then acc.reverse :: splitOnCharAux sep cs []
    else splitOnCharAux sep cs (c :: acc)

def splitOnChar (sep : Char) (cs : List Char) : List (List Char) :=
  splitOnCharAux sep cs []

def joinWith (sep : Char) : List (List Char) → List Char
  | [] => []
  | [x] => x
  | x :: xs => x ++ sep :: joinWith sep xs

/-- Hexadecimal digit value, for percent-decoding. -/
def hexVal (c : Char) : Option Nat :=
  if 48 ≤ c.toNat ∧ c.toNat ≤ 57 then some (c.toNat - 48)
  else if 97 ≤ c.toNat ∧ c.toNat ≤ 102 then some (c.toNat - 87)
  else if 65 ≤ c.toNat ∧ c.toNat ≤ 70 then some (c.toNat - 55)
  else none

/-- `urllib.parse.unquote_plus`: `+` becomes a space and `%hh` is decoded
(invalid escapes are kept verbatim, as in CPython).  Multi-byte UTF-8
percent sequences are decoded byte-per-byte here; the claims only involve
ASCII query values. -/
def unquotePlus : List Char → List Char
  | [] => []
  | c :: a :: b :: cs2 =>
    if c = '+' then ' ' :: unquotePlus (a :: b :: cs2)
    else if c = '%' then
      match hexVal a, hexVal b with
      | some x, some y => Char.ofNat (16 * x + y) :: unquotePlus cs2
      | _, _ => '%' :: unquotePlus (a :: b :: cs2)
    else c :: unquotePlus (a :: b :: cs2)
  | c :: cs =>
    (if c = '+' then ' ' else if c = '%' then '%' else c) :: unquotePlus cs

/-- The query component of a URL, as `urllib.parse.urlparse` computes it:
everything after the first `?` of the part before the first `#`. -/
def urlQuery (url : String) : List Char :=
  match splitOnChar '#' url.data with
  | [] => []
  | beforeFrag :: _ =>
    match splitOnChar '?' beforeFrag with
    | [] => []
    | [_] => []
    | _ :: rest => joinWith '?' rest

/-- `urllib.parse.parse_qsl` with default settings: split on `&`, skip
empty fields, skip fields without `=`, skip fields whose raw value is
empty, then decode name and value. -/
def parse_qsl (query : List Char) : List (String × String) :=
  (splitOnChar '&' query).filterMap (fun field =>
    match splitOnChar '=' field with
    | [] => none
    | [_] => none
    | name :: rest =>
      let value := joinWith '=' rest
      if value = [] then none
      else some (String.mk (unquotePlus name), String.mk (unquotePlus value)))

/-- First value listed under key `k`: `parse_qs(...)[k][0]`.  The key is
in the `parse_qs` dictionary exactly when this is `some`. -/
def lookupFirst (qp : List (String × String)) (k : String) : Option String :=
  (qp.find? (fun p => p.1 == k)).map (fun p => p.2)

/-- The two failures `extract_code_from_url` can raise (both `ValueError`
in Python, distinguished by message). -/
inductive ExtractErr where
  | authorizationDenied (providerError : String)
  | missingAuthorizationCode
deriving DecidableEq

/-- `extract_code_from_url` (src/auth.py:118-140): returns
`query_params["code"][0]` when the `code` key parsed; otherwise raises
`AuthorizationDenied` when `error` parsed, else `MissingAuthorizationCode`. -/
def extract_code_from_url (url : String) : Except ExtractErr String :=
  let qp := parse_qsl (urlQuery url)
  match lookupFirst qp "code" with
  | some v => .ok v
  | none =>
    match lookupFirst qp "error" with
    | some e => .error (.authorizationDenied e)
    | none => .error .missingAuthorizationCode

/-! ### Resilient API client (`src/api_client.py`)

Each invocation of the wrapped request function is an oracle outcome:
success, a `SpotifyException` with its HTTP status and optional
`Retry-After` header, or any other exception. -/

inductive Outcome (α : Type) where
  | success (v : α)
  | spotifyError (status : Nat) (retryAfter : Option Int)
  | otherError
deriving DecidableEq

inductive RetryError where
  | spotify (status : Nat) (retryAfter : Option Int)
  | other
  | maxRetriesExceeded
deriving DecidableEq

/-- The loop body of `_retry_request` (src/api_client.py:36-76).
`f attempt` is what the `attempt`-th invocation of `func` does.  Returns
the overall result, the number of invocations made, and the list of
sleep durations, in order.  `remaining` is the number of loop iterations
left (`max_retries - attempt`); the conditions are written exactly as in
the source, in terms of `attempt` and `maxRetries`. -/
def retryGo (f : Nat → Outcome α) (maxRetries : Nat) (delay : ℚ) :
    Nat → Nat → Except RetryError α × Nat × List ℚ
  | _, 0 => (.error .maxRetriesExceeded, 0, [])
  | attempt, remaining + 1 =>
    match f attempt with
    | .success v => (.ok v, 1, [])
    | .spotifyError status ra =>
      if status = 429 then
        if attempt < maxRetries - 1 then
          -- `int(e.headers.get("Retry-After", delay))`
          let w : ℚ := match ra with
            | some n => (n : ℚ)
            | none => ((⌊delay⌋ : Int) : ℚ)
          let rec_ := retryGo f maxRetries delay (attempt + 1) remaining
          (rec_.1, rec_.2.1 + 1, w :: rec_.2.2)
        else (.error (.spotify status ra), 1, [])
      else if 500 ≤ status then
        if attempt < maxRetries - 1 then
          let w : ℚ := delay * 2 ^ attempt
          let rec_ := retryGo f maxRetries delay (attempt + 1) remaining
          (rec_.1, rec_.2.1 + 1, w :: rec_.2.2)
        else (.error (.spotify status ra), 1, [])
      else (.error (.spotify status ra), 1, [])
    | .otherError =>
      if attempt < maxRetries - 1 then
        let w : ℚ := delay * 2 ^ attempt
        let rec_ := retryGo f maxRetries delay (attempt + 1) remaining
        (rec_.1, rec_.2.1 + 1, w :: rec_.2.2)
      else (.error .other, 1, [])

/-- `_retry_request(func, max_retries, delay)`: run the loop from
attempt 0.  The trailing `raise Exception("Max retries exceeded")` is the
`maxRetriesExceeded` result, reachable only when `max_retries = 0`. -/
def retry_request (f : Nat → Outcome α) (maxRetries : Nat) (delay : ℚ) :
    Except RetryError α × Nat × List ℚ :=
  retryGo f maxRetries delay 0 maxRetries

/-- One page of a paged endpoint: its items and whether it carries a
`"next"` pointer. -/
structure Page (α : Type) where
  items : List α
  hasNext : Bool
deriving DecidableEq

/-- The pagination loop inside `get_top_tracks`/`get_top_artists`
(src/api_client.py:95-107): start from the first page, and while the
current page has a `"next"` pointer fetch the following page and extend
the accumulated list.  The simulated result set is the list of pages the
client would serve in order. -/
def drainPages : List (Page α) → List α
  | [] => []
  | p :: rest => p.items ++ (if p.hasNext then drainPages rest else [])

/-- `get_top_tracks` (src/api_client.py:78-109): the pagination drain
wrapped in `_retry_request` (the wrapped `_fetch` here always succeeds;
request failures are the subject of the retry theorems). -/
def get_top_tracks (pages : List (Page α)) (maxRetries : Nat) (delay : ℚ) :
    Except RetryError (List α) × Nat × List ℚ :=
  retry_request (fun _ => .success (drainPages pages)) maxRetries delay

/-! #### Batch audio features -/

/-- The per-item fallback body (src/api_client.py:170-177): call
`client.audio_features([track_id])`; keep `feat[0]` when the call
succeeds with a list whose head is a feature (`if feat and feat[0]`),
drop the id on an empty list, a `None` head, or an exception. -/
def singleFallback (call : List String → Except Unit (List (Option F)))
    (trackId : String) : Option F :=
  match call [trackId] with
  | .ok (some f :: _) => some f
  | _ => none

/-- `_fetch_batch` (src/api_client.py:163-178) with a log of the
arguments of every `client.audio_features` call it makes: the wholesale
batch call, then — only if that call raised — one call per id of that
batch.  A batch result may contain `none` entries (invalid ids); the
fallback only ever yields features.  `_fetch_batch` catches every
exception internally, so the `_retry_request` around it always returns
its first invocation, which this definition inlines. -/
def fetchBatchTraced (call : List String → Except Unit (List (Option F)))
    (batch : List String) : List (Option F) × List (List String) :=
  match call batch with
  | .ok fs => (fs, [batch])
  | .error _ =>
    ((batch.filterMap (singleFallback call)).map some,
     batch :: batch.map (fun i => [i]))

/-- `for i in range(0, len(track_ids), 20): batch = track_ids[i:i+20]`. -/
def chunksAux : Nat → List String → List (List String)
  | 0, _ => []
  | _, [] => []
  | fuel + 1, x :: xs => (x :: xs).take 20 :: chunksAux fuel ((x :: xs).drop 20)

def chunks20 (l : List String) : List (List String) := chunksAux l.length l

/-- `get_audio_features_for_tracks` (src/api_client.py:144-188): for each
batch of 20 ids, run `_fetch_batch` and keep the non-`None` features
(`[f for f in features if f is not None]`).  Returns the concatenated
feature list and the log of every `audio_features` call made. -/
def get_audio_features_for_tracks
    (call : List String → Except Unit (List (Option F))) (trackIds : List String) :
    List F × List (List String) :=
  (chunks20 trackIds).foldl
    (fun acc b =>
      let r := fetchBatchTraced call b
      (acc.1 ++ r.1.filterMap (fun x => x), acc.2 ++ r.2))
    ([], [])

/-- A concrete list of 45 distinct track ids ("0" … "44"), for
exercising the batch fetch. -/
def sampleTrackIds : List String := (List.range 45).map (fun n => String.mk (natDigits n))

/-- A concrete request oracle that fails wholesale exactly on the second
batch of `sampleTrackIds` (the 20-element batch headed by "20") and
returns a feature for every id otherwise. -/
def sampleCall (l : List String) : Except Unit (List (Option Nat)) :=
  if l.length = 20 ∧ l.headD "" = "20" then .error ()
  else .ok (l.map (fun _ => some 0))

/-! ## Helper lemmas -/

theorem skipWs_cons_ws (c : Char) (cs : List Char) (h : isWsChar c = true) :
    skipWs (c :: cs) = skipWs cs := by
  simp [skipWs, h]

theorem skipWs_cons_not_ws (c : Char) (cs : List Char) (h : isWsChar c = false) :
    skipWs (c :: cs) = c :: cs := by
  simp [skipWs, h]

theorem mk_data (s : String) : String.mk s.data = s := by
  cases s; rfl

/-! ## Claim theorems -/

/-- C2: for every token record carrying an `expires_at` instant and every
current time `now`, `is_token_expired` returns `true` exactly when
`expires_at ≤ now + 60` and `false` exactly when `expires_at > now + 60`
(the boundary at exactly 60 seconds before expiry counts as expired). -/
theorem is_token_expired_boundary (now : Int) (t : TokenRecord) (e : Int)
    (he : t.expires_at = some e) :
    (is_token_expired now t = true ↔ e ≤ now + 60) ∧
    (is_token_expired now t = false ↔ now + 60 < e) := by
  rw [is_token_expired, he]
  simp only [Option.getD_some, decide_eq_true_eq, decide_eq_false_iff_not]
  omega

theorem is_token_expired_boundary_witness :
    ((⟨some "a", none, none, none, none, some 100⟩ : TokenRecord).expires_at = some 100) ∧
    (is_token_expired 40 ⟨some "a", none, none, none, none, some 100⟩ = true ↔
      (100 : Int) ≤ 40 + 60) ∧
    (is_token_expired 39 ⟨some "a", none, none, none, none, some 100⟩ = false ↔
      (39 : Int) + 60 < 100) :=
  ⟨rfl, (is_token_expired_boundary 40 _ 100 rfl).1,
    (is_token_expired_boundary 39 _ 100 rfl).2⟩

/-- C5: a successful refresh-token exchange yields a record whose
`refresh_token` is the provider's new refresh token when the response
includes one and the caller's original refresh token when the response
omits it, and whose `expires_at` is the absolute instant
`now + expires_in` (with the source's default of 3600 when the response
omits `expires_in`). -/
theorem refresh_access_token_spec (refreshToken : String) (now : Int)
    (status : Nat) (body : RefreshResponseBody) (hs : status < 400) :
    ∃ t, refresh_access_token refreshToken now (.ok (status, body)) = .ok t ∧
      (∀ nrt, body.refresh_token = some nrt → t.refresh_token = some nrt) ∧
      (body.refresh_token = none → t.refresh_token = some refreshToken) ∧
      t.expires_at = some (now + body.expires_in.getD 3600) ∧
      (∀ ei, body.expires_in = some ei → t.expires_at = some (now + ei)) := by
  have hcond : ¬(400 ≤ status ∧ status < 600) := by omega
  refine ⟨{ access_token := body.access_token, token_type := body.token_type,
            scope := body.scope, expires_in := body.expires_in,
            refresh_token := match body.refresh_token with
              | some rt => some rt
              | none => some refreshToken,
            expires_at := some (now + body.expires_in.getD 3600) },
    by simp [refresh_access_token, hcond], ?_, ?_, rfl, ?_⟩
  · intro nrt hn; simp [hn]
  · intro hn; simp [hn]
  · intro ei hei; simp [hei]

theorem refresh_access_token_spec_witness :
    (200 < 400) ∧
    (∃ t, refresh_access_token "oldRT" 1000
        (.ok (200, ⟨some "newAT", some "Bearer", none, some 3600, some "newRT"⟩)) = .ok t ∧
      (∀ nrt, (some "newRT" : Option String) = some nrt → t.refresh_token = some nrt) ∧
      ((some "newRT" : Option String) = none → t.refresh_token = some "oldRT") ∧
      t.expires_at = some (1000 + (some (3600 : Int)).getD 3600) ∧
      (∀ ei, (some (3600 : Int) : Option Int) = some ei → t.expires_at = some (1000 + ei))) :=
  ⟨by omega, refresh_access_token_spec "oldRT" 1000 200
      ⟨some "newAT", some "Bearer", none, some 3600, some "newRT"⟩ (by omega)⟩

/-- C7: `load_tokens` returns "absent" (`none`), never raising, both when
the token file does not exist and when the file exists but its content
fails to parse; corrupt state is treated as no-state.  (The function is
total by construction, so it cannot raise.) -/
theorem load_tokens_absent_on_missing_or_corrupt (s : String)
    (hbad : parseTokens s = none) :
    load_tokens none = none ∧ load_tokens (some s) = none := by
  exact ⟨rfl, by simp [load_tokens, hbad]⟩

theorem load_tokens_absent_witness :
    (parseTokens "this is not valid json" = none) ∧
    (load_tokens none = none ∧ load_tokens (some "this is not valid json") = none) :=
  ⟨by decide, load_tokens_absent_on_missing_or_corrupt _ (by decide)⟩

/-- C3: when every attempt of the wrapped request raises a
`SpotifyException` with HTTP status ≥ 500, `_retry_request` with its
attempt cap of 3 invokes the function exactly 3 times, sleeping
`delay * 2^0` and then `delay * 2^1` between the attempts (exponential
backoff on the base delay), and finally raises the exception of the
third attempt — it never makes a 4th invocation. -/
theorem retry_request_server_error_cap (f : Nat → Outcome α) (delay : ℚ)
    (s0 s1 s2 : Nat) (r0 r1 r2 : Option Int)
    (h0 : f 0 = .spotifyError s0 r0) (hs0 : 500 ≤ s0)
    (h1 : f 1 = .spotifyError s1 r1) (hs1 : 500 ≤ s1)
    (h2 : f 2 = .spotifyError s2 r2) (hs2 : 500 ≤ s2) :
    retry_request f 3 delay =
      (.error (.spotify s2 r2), 3, [delay * 2 ^ 0, delay * 2 ^ 1]) := by
  have n0 : s0 ≠ 429 := by omega
  have n1 : s1 ≠ 429 := by omega
  have n2 : s2 ≠ 429 := by omega
  simp [retry_request, retryGo, h0, h1, h2, n0, n1, n2, hs0, hs1, hs2]

theorem retry_request_server_error_cap_witness :
    retry_request (fun _ => (Outcome.spotifyError 503 none : Outcome Nat)) 3 1 =
      (.error (.spotify 503 none), 3, [1 * 2 ^ 0, 1 * 2 ^ 1]) :=
  retry_request_server_error_cap (fun _ => (Outcome.spotifyError 503 none : Outcome Nat))
    1 503 503 503 none none none rfl (by omega) rfl (by omega) rfl (by omega)

theorem drainPages_join (pages : List (Page α)) (hne : pages ≠ [])
    (hnext : ∀ p ∈ pages.dropLast, p.hasNext = true)
    (hlast : ∀ p, pages.getLast? = some p → p.hasNext = false) :
    drainPages pages = (pages.map Page.items).flatten := by
  induction pages with
  | nil => exact absurd rfl hne
  | cons p rest ih =>
    cases rest with
    | nil =>
      have hp := hlast p rfl
      simp [drainPages, hp]
    | cons q rest' =>
      have hp : p.hasNext = true := by
        refine hnext p ?_
        simp [List.dropLast_cons₂]
      have ihh := ih (by simp)
        (fun x hx => hnext x (by simp only [List.dropLast_cons₂]; exact List.mem_cons_of_mem p hx))
        (fun x hx => hlast x (by rwa [List.getLast?_cons_cons]))
      have e1 : drainPages (p :: q :: rest') =
          p.items ++ (if p.hasNext then drainPages (q :: rest') else []) := rfl
      rw [e1, hp, if_pos rfl, ihh]
      simp

/-- C4: for every multi-page response sequence in which every page but
the last carries a `"next"` pointer and the last does not,
`get_top_tracks` drains all continuation pages and returns the single
in-memory list of all items of all pages in page-and-item order — the
first (and only) attempt succeeds, so the caller never sees a partial
page. -/
theorem get_top_tracks_drains_all_pages (pages : List (Page α))
    (hne : pages ≠ [])
    (hnext : ∀ p ∈ pages.dropLast, p.hasNext = true)
    (hlast : ∀ p, pages.getLast? = some p → p.hasNext = false) :
    get_top_tracks pages 3 1 =
      (.ok ((pages.map Page.items).flatten), 1, []) := by
  have hd := drainPages_join pages hne hnext hlast
  simp [get_top_tracks, retry_request, retryGo, hd]

theorem get_top_tracks_drains_all_pages_witness :
    get_top_tracks
        [⟨[1, 2], true⟩, ⟨[3], true⟩, ⟨[4, 5], false⟩] 3 1 =
      (.ok ((([⟨[1, 2], true⟩, ⟨[3], true⟩, ⟨[4, 5], false⟩] :
          List (Page Nat)).map Page.items).flatten), 1, []) :=
  get_top_tracks_drains_all_pages _ (by decide) (by decide) (by decide)

/-- C6 (counterexample): the claim says `extract_code_from_url` fails
with `AuthorizationDenied` *whenever* an `error` query parameter is
present; but on a redirect URL carrying both `code` and `error`
parameters the source returns the code (the `error` branch is only
reached when `code` is absent). -/
theorem extract_code_counterexample :
    lookupFirst (parse_qsl (urlQuery
        "http://localhost:8888/callback?code=abc123&error=access_denied")) "error" =
      some "access_denied" ∧
    extract_code_from_url
        "http://localhost:8888/callback?code=abc123&error=access_denied" =
      .ok "abc123" ∧
    extract_code_from_url
        "http://localhost:8888/callback?code=abc123&error=access_denied" ≠
      .error (.authorizationDenied "access_denied") := by
  have h2 : extract_code_from_url
      "http://localhost:8888/callback?code=abc123&error=access_denied" =
      .ok "abc123" := rfl
  exact ⟨by decide, h2, by rw [h2]; intro h; exact Except.noConfusion h⟩

/-- C6 (amended): for every redirect URL, `extract_code_from_url`
returns the first `code` value when the parsed query contains a `code`
parameter (parsing drops parameters with an empty value, per
`parse_qs`'s default `keep_blank_values=False`); fails with
`AuthorizationDenied` carrying the provider's error string when `error`
is present and `code` is not; and fails with
`MissingAuthorizationCode` when neither is present. -/
theorem extract_code_cases (url : String) :
    (∀ v, lookupFirst (parse_qsl (urlQuery url)) "code" = some v →
        extract_code_from_url url = .ok v) ∧
    (lookupFirst (parse_qsl (urlQuery url)) "code" = none →
      ∀ e, lookupFirst (parse_qsl (urlQuery url)) "error" = some e →
        extract_code_from_url url = .error (.authorizationDenied e)) ∧
    (lookupFirst (parse_qsl (urlQuery url)) "code" = none →
      lookupFirst (parse_qsl (urlQuery url)) "error" = none →
        extract_code_from_url url = .error .missingAuthorizationCode) := by
  refine ⟨?_, ?_, ?_⟩
  · intro v hv; simp [extract_code_from_url, hv]
  · intro hc e he; simp [extract_code_from_url, hc, he]
  · intro hc he; simp [extract_code_from_url, hc, he]

theorem extract_code_cases_witness :
    (lookupFirst (parse_qsl (urlQuery "http://localhost:8888/callback?code=abc123"))
        "code" = some "abc123" ∧
      extract_code_from_url "http://localhost:8888/callback?code=abc123" =
        .ok "abc123") ∧
    (extract_code_from_url "http://localhost:8888/callback?error=access_denied" =
      .error (.authorizationDenied "access_denied")) ∧
    (extract_code_from_url "http://localhost:8888/callback?state=xyz" =
      .error .missingAuthorizationCode) :=
  ⟨⟨by decide, (extract_code_cases "http://localhost:8888/callback?code=abc123").1
      "abc123" (by decide)⟩,
    (extract_code_cases "http://localhost:8888/callback?error=access_denied").2.1
      (by decide) "access_denied" (by decide),
    (extract_code_cases "http://localhost:8888/callback?state=xyz").2.2
      (by decide) (by decide)⟩

/-- C10: whenever the stored token record is not expired,
`get_valid_token` performs no write: the token-file state after the call
is exactly the state before (the record is only re-persisted on the
refresh path). -/
theorem get_valid_token_no_write (now : Int) (fs : Option String)
    (http : Except Unit (Nat × RefreshResponseBody)) (t : TokenRecord)
    (hl : load_tokens fs = some t)
    (hexp : is_token_expired now t = false) :
    (get_valid_token now fs http).2 = fs := by
  rw [get_valid_token, hl]
  by_cases he : t.isEmpty
  · simp [he]
  · simp only [he, Bool.false_eq_true, if_false, hexp]
    cases t.access_token <;> simp

theorem get_valid_token_no_write_witness :
    (load_tokens (some (save_tokens ⟨some "tok", none, none, none, some "r", some 1000⟩)) =
      some ⟨some "tok", none, none, none, some "r", some 1000⟩) ∧
    (is_token_expired 0 ⟨some "tok", none, none, none, some "r", some 1000⟩ = false) ∧
    (get_valid_token 0 (some (save_tokens ⟨some "tok", none, none, none, some "r", some 1000⟩))
        (.error ())).2 =
      some (save_tokens ⟨some "tok", none, none, none, some "r", some 1000⟩) :=
  ⟨by decide, by decide,
    get_valid_token_no_write 0 _ (.error ()) ⟨some "tok", none, none, none, some "r", some 1000⟩
      (by decide) (by decide)⟩

/-- C1 (counterexample): a token file containing the empty JSON object
`\x7b\x7d` loads as a stored record that is expired (its missing
`expires_at` defaults to 0) and has no refresh token, so the claim as
stated demands `NoRefreshTokenError`; but `if not token_data:` in the
source is also true for an empty dictionary, so the call fails with
`NoTokenError` instead. -/
theorem get_valid_token_counterexample :
    (load_tokens (some (save_tokens ⟨none, none, none, none, none, none⟩)) =
      some ⟨none, none, none, none, none, none⟩) ∧
    (⟨none, none, none, none, none, none⟩ : TokenRecord).refresh_token = none ∧
    is_token_expired 1000 ⟨none, none, none, none, none, none⟩ = true ∧
    (get_valid_token 1000 (some (save_tokens ⟨none, none, none, none, none, none⟩))
        (.error ())).1 = .error .noToken ∧
    (get_valid_token 1000 (some (save_tokens ⟨none, none, none, none, none, none⟩))
        (.error ())).1 ≠ .error .noRefreshToken := by
  have h4 : (get_valid_token 1000 (some (save_tokens ⟨none, none, none, none, none, none⟩))
      (.error ())).1 = .error .noToken := rfl
  refine ⟨by decide, rfl, by decide, h4, ?_⟩
  rw [h4]
  intro h
  have := Except.error.inj h
  exact AuthError.noConfusion this

/-- C1 (amended): `get_valid_token` is the single validity gate: it fails
with `NoTokenError` when the token store is absent *or holds an empty
record* (Python's `if not token_data:` treats an empty dictionary like a
missing store); for a non-empty stored record it fails with
`NoRefreshTokenError` when the record is expired and has no refresh
token; when expired with a refresh token it invokes refresh, persists the
refreshed record to the token store, and returns the new access token;
and when not expired it returns the stored access token directly, leaving
the store unchanged. -/
theorem get_valid_token_cases (now : Int) (fs : Option String)
    (http : Except Unit (Nat × RefreshResponseBody)) :
    (load_tokens fs = none →
      get_valid_token now fs http = (.error .noToken, fs)) ∧
    (∀ t, load_tokens fs = some t → t.isEmpty = true →
      get_valid_token now fs http = (.error .noToken, fs)) ∧
    (∀ t, load_tokens fs = some t → t.isEmpty = false →
      is_token_expired now t = true → t.refresh_token = none →
      get_valid_token now fs http = (.error .noRefreshToken, fs)) ∧
    (∀ t rt t2 a, load_tokens fs = some t → t.isEmpty = false →
      is_token_expired now t = true → t.refresh_token = some rt →
      refresh_access_token rt now http = .ok t2 → t2.access_token = some a →
      get_valid_token now fs http = (.ok a, some (save_tokens t2))) ∧
    (∀ t a, load_tokens fs = some t → t.isEmpty = false →
      is_token_expired now t = false → t.access_token = some a →
      get_valid_token now fs http = (.ok a, fs)) := by
  refine ⟨?_, ?_, ?_, ?_, ?_⟩
  · intro h; rw [get_valid_token, h]
  · intro t hl he; rw [get_valid_token, hl]; simp [he]
  · intro t hl he hexp hrt
    rw [get_valid_token, hl]
    simp [he, hexp, hrt]
  · intro t rt t2 a hl he hexp hrt hr ha
    rw [get_valid_token, hl]
    simp [he, hexp, hrt, hr, ha]
  · intro t a hl he hexp ha
    rw [get_valid_token, hl]
    simp [he, hexp, ha]

theorem get_valid_token_cases_witness :
    (get_valid_token 0 none (.error ()) = (.error .noToken, none)) ∧
    (get_valid_token 1000 (some (save_tokens ⟨none, none, none, none, none, none⟩))
        (.error ()) =
      (.error .noToken, some (save_tokens ⟨none, none, none, none, none, none⟩))) ∧
    (get_valid_token 1000 (some (save_tokens ⟨some "a", none, none, none, none, some 10⟩))
        (.error ()) =
      (.error .noRefreshToken,
        some (save_tokens ⟨some "a", none, none, none, none, some 10⟩))) ∧
    (get_valid_token 1000 (some (save_tokens ⟨some "a", none, none, none, some "rt", some 10⟩))
        (.ok (200, ⟨some "a2", none, none, some 3600, some "nrt"⟩)) =
      (.ok "a2", some (save_tokens ⟨some "a2", none, none, some 3600, some "nrt", some 4600⟩))) ∧
    (get_valid_token 0 (some (save_tokens ⟨some "a", none, none, none, some "rt", some 1000⟩))
        (.error ()) =
      (.ok "a", some (save_tokens ⟨some "a", none, none, none, some "rt", some 1000⟩))) :=
  ⟨(get_valid_token_cases 0 none (.error ())).1 rfl,
    (get_valid_token_cases 1000 _ (.error ())).2.1
      ⟨none, none, none, none, none, none⟩ (by decide) (by decide),
    (get_valid_token_cases 1000 _ (.error ())).2.2.1
      ⟨some "a", none, none, none, none, some 10⟩ (by decide) (by decide) (by decide) rfl,
    (get_valid_token_cases 1000 _ _).2.2.2.1
      ⟨some "a", none, none, none, some "rt", some 10⟩ "rt"
      ⟨some "a2", none, none, some 3600, some "nrt", some 4600⟩ "a2"
      (by decide) (by decide) (by decide) rfl rfl rfl,
    (get_valid_token_cases 0 _ (.error ())).2.2.2.2
      ⟨some "a", none, none, none, some "rt", some 1000⟩ "a" (by decide) (by decide)
      (by decide) rfl⟩

theorem chunks20_of_45 (ids : List String) (h45 : ids.length = 45) :
    chunks20 ids = [ids.take 20, (ids.drop 20).take 20, ids.drop 40] := by
  rw [chunks20, h45]
  cases ids with
  | nil => simp at h45
  | cons a as =>
    have e1 : chunksAux 45 (a :: as) =
        (a :: as).take 20 :: chunksAux 44 ((a :: as).drop 20) := rfl
    rw [e1]
    have hl1 : ((a :: as).drop 20).length = 25 := by
      rw [List.length_drop, h45]
    cases hd1 : (a :: as).drop 20 with
    | nil => rw [hd1] at hl1; simp at hl1
    | cons b bs =>
      have e2 : chunksAux 44 (b :: bs) =
          (b :: bs).take 20 :: chunksAux 43 ((b :: bs).drop 20) := rfl
      rw [hd1] at hl1
      have hd2 : (b :: bs).drop 20 = (a :: as).drop 40 := by
        rw [← hd1, List.drop_drop]
      have hl2 : ((a :: as).drop 40).length = 5 := by
        rw [List.length_drop, h45]
      rw [e2, hd2]
      cases hd3 : (a :: as).drop 40 with
      | nil => rw [hd3] at hl2; simp at hl2
      | cons c cs =>
        have e3 : chunksAux 43 (c :: cs) =
            (c :: cs).take 20 :: chunksAux 42 ((c :: cs).drop 20) := rfl
        rw [hd3] at hl2
        have hdrop : (c :: cs).drop 20 = [] := by
          apply List.drop_eq_nil_of_le
          omega
        have htake : (c :: cs).take 20 = c :: cs := by
          apply List.take_of_length_le
          omega
        rw [e3, hdrop, htake]
        rfl

/-- C8: on a list of 45 track ids, `get_audio_features_for_tracks`
issues exactly 3 wholesale batch requests of sizes 20, 20 and 5; when the
second batch fails wholesale (and the other two succeed), the call log is
exactly: batch 1, batch 2, then one per-item request for each of batch
2's 20 ids, then batch 3 — and the returned list is the non-`None`
features of batch 1, then the features of exactly those batch-2 ids whose
individual request succeeded, then the non-`None` features of batch 3
(best-effort partial results, the fetch is never aborted). -/
theorem audio_features_batch_fallback (F : Type)
    (call : List String → Except Unit (List (Option F)))
    (ids : List String) (h45 : ids.length = 45)
    (f0 f2 : List (Option F))
    (hc0 : call (ids.take 20) = .ok f0)
    (hc1 : call ((ids.drop 20).take 20) = .error ())
    (hc2 : call (ids.drop 40) = .ok f2) :
    chunks20 ids = [ids.take 20, (ids.drop 20).take 20, ids.drop 40] ∧
    (chunks20 ids).map List.length = [20, 20, 5] ∧
    (get_audio_features_for_tracks call ids).2 =
      [ids.take 20, (ids.drop 20).take 20] ++
        ((ids.drop 20).take 20).map (fun i => [i]) ++ [ids.drop 40] ∧
    (get_audio_features_for_tracks call ids).1 =
      f0.filterMap (fun x => x) ++
        ((ids.drop 20).take 20).filterMap (singleFallback call) ++
        f2.filterMap (fun x => x) := by
  have hch := chunks20_of_45 ids h45
  refine ⟨hch, ?_, ?_, ?_⟩
  · rw [hch]
    simp [List.length_take, List.length_drop, h45]
  · rw [get_audio_features_for_tracks, hch]
    simp [fetchBatchTraced, hc0, hc1, hc2]
  · rw [get_audio_features_for_tracks, hch]
    have hms : ∀ l : List F, (l.map some).filterMap (fun x => x) = l := by
      intro l
      induction l with
      | nil => rfl
      | cons x xs ih => simp [List.filterMap_cons, ih]
    simp [fetchBatchTraced, hc0, hc1, hc2, hms]

theorem audio_features_batch_fallback_witness :
    sampleTrackIds.length = 45 ∧
    (chunks20 sampleTrackIds =
        [sampleTrackIds.take 20, (sampleTrackIds.drop 20).take 20, sampleTrackIds.drop 40] ∧
      (chunks20 sampleTrackIds).map List.length = [20, 20, 5] ∧
      (get_audio_features_for_tracks sampleCall sampleTrackIds).2 =
        [sampleTrackIds.take 20, (sampleTrackIds.drop 20).take 20] ++
          ((sampleTrackIds.drop 20).take 20).map (fun i => [i]) ++ [sampleTrackIds.drop 40] ∧
      (get_audio_features_for_tracks sampleCall sampleTrackIds).1 =
        ((sampleTrackIds.take 20).map (fun _ => some 0)).filterMap (fun x => x) ++
          ((sampleTrackIds.drop 20).take 20).filterMap (singleFallback sampleCall) ++
          ((sampleTrackIds.drop 40).map (fun _ => some 0)).filterMap (fun x => x)) :=
  ⟨by decide,
    audio_features_batch_fallback Nat sampleCall sampleTrackIds (by decide)
      ((sampleTrackIds.take 20).map (fun _ => some 0))
      ((sampleTrackIds.drop 40).map (fun _ => some 0))
      rfl rfl rfl⟩

/-! ### Round-trip machinery for the token store (claim C9) -/

theorem digitChar_toNat (d : Nat) (h : d < 10) : (digitChar d).toNat = 48 + d := by
  interval_cases d <;> rfl

theorem isDigitChar_digitChar (d : Nat) (h : d < 10) : isDigitChar (digitChar d) = true := by
  interval_cases d <;> rfl

theorem digitsToNat_append (ds : List Char) (c : Char) :
    digitsToNat (ds ++ [c]) = 10 * digitsToNat ds + (c.toNat - 48) := by
  rw [digitsToNat, List.foldl_append]
  rfl

theorem natDigitsAux_spec (fuel : Nat) :
    ∀ n, n < fuel →
      natDigitsAux fuel n ≠ [] ∧
      (∀ c ∈ natDigitsAux fuel n, isDigitChar c = true) ∧
      digitsToNat (natDigitsAux fuel n) = n := by
  induction fuel with
  | zero => intro n hn; omega
  | succ f ih =>
    intro n hn
    by_cases h10 : n < 10
    · have e : natDigitsAux (f + 1) n = [digitChar n] := by
        simp [natDigitsAux, h10]
      refine ⟨by simp [e], ?_, ?_⟩
      · intro c hc
        rw [e] at hc
        simp at hc
        rw [hc]
        exact isDigitChar_digitChar n h10
      · rw [e]
        have := digitChar_toNat n h10
        simp [digitsToNat, this]
    · have e : natDigitsAux (f + 1) n =
          natDigitsAux f (n / 10) ++ [digitChar (n % 10)] := by
        simp [natDigitsAux, h10]
      have hdiv : n / 10 < f := by
        have := Nat.div_lt_self (by omega : 0 < n) (by omega : 1 < 10)
        omega
      obtain ⟨hne, hall, hval⟩ := ih (n / 10) hdiv
      refine ⟨by simp [e], ?_, ?_⟩
      · intro c hc
        rw [e] at hc
        rcases List.mem_append.1 hc with h | h
        · exact hall c h
        · simp at h
          rw [h]
          exact isDigitChar_digitChar _ (Nat.mod_lt n (by omega))
      · rw [e, digitsToNat_append, hval, digitChar_toNat _ (Nat.mod_lt n (by omega))]
        omega

theorem natDigits_spec (n : Nat) :
    natDigits n ≠ [] ∧
    (∀ c ∈ natDigits n, isDigitChar c = true) ∧
    digitsToNat (natDigits n) = n :=
  natDigitsAux_spec (n + 1) n (Nat.lt_succ_self n)

theorem takeWhile_append_all (p : Char → Bool) (xs ys : List Char)
    (h : ∀ c ∈ xs, p c = true) :
    (xs ++ ys).takeWhile p = xs ++ ys.takeWhile p := by
  induction xs with
  | nil => simp
  | cons x xs ih =>
    have hx := h x (List.mem_cons_self x xs)
    simp only [List.cons_append, List.takeWhile_cons, hx, if_true]
    rw [ih (fun c hc => h c (List.mem_cons_of_mem x hc))]

theorem dropWhile_append_all (p : Char → Bool) (xs ys : List Char)
    (h : ∀ c ∈ xs, p c = true) :
    (xs ++ ys).dropWhile p = ys.dropWhile p := by
  induction xs with
  | nil => simp
  | cons x xs ih =>
    have hx := h x (List.mem_cons_self x xs)
    simp only [List.cons_append, List.dropWhile_cons, hx, if_true]
    exact ih (fun c hc => h c (List.mem_cons_of_mem x hc))

theorem takeWhile_head_not (p : Char → Bool) (ys : List Char)
    (h : ∀ c cs, ys = c :: cs → p c = false) :
    ys.takeWhile p = [] := by
  cases ys with
  | nil => rfl
  | cons c cs => simp [List.takeWhile_cons, h c cs rfl]

theorem dropWhile_head_not (p : Char → Bool) (ys : List Char)
    (h : ∀ c cs, ys = c :: cs → p c = false) :
    ys.dropWhile p = ys := by
  cases ys with
  | nil => rfl
  | cons c cs => simp [List.dropWhile_cons, h c cs rfl]

theorem headNotDigit_spec (ys : List Char) (h : headNotDigit ys = true) :
    ∀ c cs, ys = c :: cs → isDigitChar c = false := by
  intro c cs he
  rw [he] at h
  simpa [headNotDigit] using h

theorem parseNatTok_natDigits (n : Nat) (rest : List Char)
    (hr : headNotDigit rest = true) :
    parseNatTok (natDigits n ++ rest) = some (n, rest) := by
  obtain ⟨hne, hall, hval⟩ := natDigits_spec n
  have htw : (natDigits n ++ rest).takeWhile isDigitChar = natDigits n := by
    rw [takeWhile_append_all _ _ _ hall,
      takeWhile_head_not _ _ (headNotDigit_spec rest hr)]
    simp
  have hdw : (natDigits n ++ rest).dropWhile isDigitChar = rest := by
    rw [dropWhile_append_all _ _ _ hall]
    exact dropWhile_head_not _ _ (headNotDigit_spec rest hr)
  cases hnd : natDigits n with
  | nil => exact absurd hnd hne
  | cons d ds =>
    rw [hnd] at htw hdw hval
    simp only [List.cons_append] at htw hdw
    simp [parseNatTok, htw, hdw, hval]

theorem natDigits_head (n : Nat) :
    ∃ d ds, natDigits n = d :: ds ∧ isDigitChar d = true := by
  obtain ⟨hne, hall, -⟩ := natDigits_spec n
  cases hnd : natDigits n with
  | nil => exact absurd hnd hne
  | cons d ds =>
    rw [hnd] at hall
    exact ⟨d, ds, rfl, hall d (List.mem_cons_self d ds)⟩

theorem isDigitChar_ne (c : Char) (h : isDigitChar c = true) :
    c ≠ '-' ∧ c ≠ dquoteChar ∧ isWsChar c = false := by
  have hb : 48 ≤ c.toNat ∧ c.toNat ≤ 57 := by
    simpa [isDigitChar] using h
  have h1 : c ≠ '-' := by
    intro he; rw [he] at hb; exact absurd hb (by decide)
  have h2 : c ≠ dquoteChar := by
    intro he; rw [he] at hb; exact absurd hb (by decide)
  have h3 : c ≠ ' ' := by
    intro he; rw [he] at hb; exact absurd hb (by decide)
  have h4 : c ≠ '\n' := by
    intro he; rw [he] at hb; exact absurd hb (by decide)
  have h5 : c ≠ '\t' := by
    intro he; rw [he] at hb; exact absurd hb (by decide)
  have h6 : c ≠ '\r' := by
    intro he; rw [he] at hb; exact absurd hb (by decide)
  exact ⟨h1, h2, by simp [isWsChar, h3, h4, h5, h6]⟩

theorem parseIntTok_intDigits (i : Int) (rest : List Char)
    (hr : headNotDigit rest = true) :
    parseIntTok (intDigits i ++ rest) = some (i, rest) := by
  by_cases hneg : i < 0
  · have h0 : (0 : Int) ≤ -i := by omega
    have htn : (((-i).toNat : Nat) : Int) = -i := Int.toNat_of_nonneg h0
    rw [intDigits, if_pos hneg]
    simp only [List.cons_append]
    simp [parseIntTok, parseNatTok_natDigits _ _ hr, htn]
  · have h0 : (0 : Int) ≤ i := by omega
    have htn : ((i.toNat : Nat) : Int) = i := Int.toNat_of_nonneg h0
    obtain ⟨d, ds, hnd, hdig⟩ := natDigits_head i.toNat
    have hdm : d ≠ '-' := (isDigitChar_ne d hdig).1
    rw [intDigits, if_neg hneg, hnd]
    simp only [List.cons_append]
    rw [parseIntTok]
    simp only [hdm, if_false]
    rw [← List.cons_append, ← hnd]
    simp [parseNatTok_natDigits _ _ hr, htn]

theorem scanStr_cons (c : Char) (cs : List Char) :
    scanStr (c :: cs) =
      if c = dquoteChar then some ([], cs)
      else if c = bslashChar then
        match cs with
        | [] => none
        | e :: cs2 =>
          match unescapeChar e with
          | none => none
          | some d => (scanStr cs2).map (fun p => (d :: p.1, p.2))
      else (scanStr cs).map (fun p => (c :: p.1, p.2)) := by
  rw [scanStr.eq_def]

theorem scanStr_escape (s : List Char) (rest : List Char) :
    scanStr (escapeStr s ++ dquoteChar :: rest) = some (s, rest) := by
  induction s with
  | nil =>
    rw [show escapeStr [] ++ dquoteChar :: rest = dquoteChar :: rest from rfl,
      scanStr_cons]
    simp
  | cons c cs ih =>
    by_cases hc : c = dquoteChar || c = bslashChar
    · have he : escapeStr (c :: cs) = bslashChar :: c :: escapeStr cs := by
        simp [escapeStr, hc]
      have hbd : ¬(bslashChar = dquoteChar) := by decide
      rw [he]
      simp only [List.cons_append]
      rw [scanStr_cons]
      simp only [hbd, if_false, if_pos rfl]
      rcases Bool.or_eq_true_iff.1 hc with h | h
      · have hcq : c = dquoteChar := by simpa using h
        simp [hcq, unescapeChar, ih]
      · have hcb : c = bslashChar := by simpa using h
        have hbq : ¬(bslashChar = dquoteChar) := by decide
        simp [hcb, unescapeChar, hbq, ih]
    · have hcq : ¬(c = dquoteChar) := by
        intro h; rw [h] at hc; simp at hc
      have hcb : ¬(c = bslashChar) := by
        intro h; rw [h] at hc; simp at hc
      have he : escapeStr (c :: cs) = c :: escapeStr cs := by
        simp [escapeStr, hc]
      rw [he]
      simp only [List.cons_append]
      rw [scanStr_cons]
      simp [hcq, hcb, ih]

theorem intDigits_head (i : Int) :
    ∃ d ds, intDigits i = d :: ds ∧ d ≠ dquoteChar ∧ isWsChar d = false := by
  by_cases hneg : i < 0
  · exact ⟨'-', natDigits (-i).toNat, by simp [intDigits, hneg], by decide, by decide⟩
  · obtain ⟨d, ds, hnd, hdig⟩ := natDigits_head i.toNat
    obtain ⟨-, h2, h3⟩ := isDigitChar_ne d hdig
    exact ⟨d, ds, by simp [intDigits, hneg, hnd], h2, h3⟩

theorem dumpJVal_head (v : JVal) :
    ∃ d ds, dumpJVal v = d :: ds ∧ isWsChar d = false := by
  cases v with
  | jstr s => exact ⟨dquoteChar, _, rfl, by decide⟩
  | jint i =>
    obtain ⟨d, ds, h1, -, h3⟩ := intDigits_head i
    exact ⟨d, ds, h1, h3⟩

theorem parseJVal_dumpJVal (v : JVal) (rest : List Char)
    (hr : headNotDigit rest = true) :
    parseJVal (dumpJVal v ++ rest) = some (v, rest) := by
  cases v with
  | jstr s =>
    have he : dumpJVal (.jstr s) ++ rest =
        dquoteChar :: (escapeStr s.data ++ dquoteChar :: rest) := by
      simp [dumpJVal, dumpJStr]
    rw [he]
    simp [parseJVal, scanStr_escape, mk_data]
  | jint i =>
    obtain ⟨d, ds, hid, hdq, -⟩ := intDigits_head i
    have he : dumpJVal (.jint i) ++ rest = d :: (ds ++ rest) := by
      simp [dumpJVal, hid]
    rw [he]
    rw [parseJVal]
    simp only [hdq, if_false]
    rw [← List.cons_append, ← hid, parseIntTok_intDigits i rest hr]
    rfl

theorem parseMember_dumpKV (k : String) (v : JVal) (rest : List Char)
    (hr : headNotDigit rest = true) :
    parseMember (dumpKV (k, v) ++ rest) = some (k, v, rest) := by
  have w1 : isWsChar ':' = false := by decide
  have w2 : isWsChar ' ' = true := by decide
  have w3 : isWsChar dquoteChar = false := by decide
  obtain ⟨d, ds, hdv, hdw⟩ := dumpJVal_head v
  have w4 : skipWs (dumpJVal v ++ rest) = dumpJVal v ++ rest := by
    rw [hdv]
    simp only [List.cons_append]
    exact skipWs_cons_not_ws _ _ hdw
  have he : dumpKV (k, v) ++ rest =
      dquoteChar ::
        (escapeStr k.data ++ dquoteChar :: (':' :: ' ' :: (dumpJVal v ++ rest))) := by
    simp [dumpKV, dumpJStr]
  rw [he, parseMember]
  rw [skipWs_cons_not_ws _ _ w3]
  simp only [scanStr_escape, skipWs_cons_not_ws _ _ w1, skipWs_cons_ws _ _ w2, w4,
    parseJVal_dumpJVal v rest hr, if_pos rfl]
  simp [mk_data]

theorem headNotDigit_cons (c : Char) (cs : List Char) (h : isDigitChar c = false) :
    headNotDigit (c :: cs) = true := by
  simp [headNotDigit, h]

theorem parseMember_ws (c : Char) (cs : List Char) (h : isWsChar c = true) :
    parseMember (c :: cs) = parseMember cs := by
  rw [parseMember, parseMember, skipWs_cons_ws _ _ h]

theorem parseMembersFuel_ws (fuel : Nat) (c : Char) (cs : List Char)
    (h : isWsChar c = true) :
    parseMembersFuel (fuel + 1) (c :: cs) = parseMembersFuel (fuel + 1) cs := by
  simp only [parseMembersFuel, parseMember_ws c cs h]

theorem parseMembersFuel_dumpMembers :
    ∀ (kvs : List (String × JVal)) (fuel : Nat) (tail : List Char),
      kvs ≠ [] → kvs.length ≤ fuel →
      parseMembersFuel fuel (dumpMembers kvs ++ '\n' :: rbraceChar :: tail) =
        some (kvs, tail) := by
  intro kvs
  induction kvs with
  | nil => intro fuel tail hne _; exact absurd rfl hne
  | cons kv kvs' ih =>
    obtain ⟨k, v⟩ := kv
    intro fuel tail hne hlen
    obtain ⟨f, rfl⟩ : ∃ f, fuel = f + 1 := ⟨fuel - 1, by simp at hlen; omega⟩
    cases kvs' with
    | nil =>
      have hm := parseMember_dumpKV k v ('\n' :: rbraceChar :: tail)
        (headNotDigit_cons _ _ (by decide))
      have hcm : ¬(rbraceChar = ',') := by decide
      rw [show dumpMembers [(k, v)] = dumpKV (k, v) from rfl]
      rw [parseMembersFuel, hm]
      simp only [skipWs_cons_ws _ _ (by decide : isWsChar '\n' = true),
        skipWs_cons_not_ws _ _ (by decide : isWsChar rbraceChar = false)]
      simp [hcm]
    | cons kv2 kvs'' =>
      have hlen' : (kv2 :: kvs'').length ≤ f := by
        simp at hlen ⊢; omega
      obtain ⟨f', rfl⟩ : ∃ f', f = f' + 1 := ⟨f - 1, by simp at hlen'; omega⟩
      have hm := parseMember_dumpKV k v
        (',' :: '\n' :: ' ' :: ' ' ::
          (dumpMembers (kv2 :: kvs'') ++ '\n' :: rbraceChar :: tail))
        (headNotDigit_cons _ _ (by decide))
      have he : dumpMembers ((k, v) :: kv2 :: kvs'') ++ '\n' :: rbraceChar :: tail =
          dumpKV (k, v) ++
            (',' :: '\n' :: ' ' :: ' ' ::
              (dumpMembers (kv2 :: kvs'') ++ '\n' :: rbraceChar :: tail)) := by
        rw [show dumpMembers ((k, v) :: kv2 :: kvs'') =
          dumpKV (k, v) ++ ',' :: '\n' :: ' ' :: ' ' :: dumpMembers (kv2 :: kvs'')
          from rfl]
        simp
      rw [he, parseMembersFuel, hm]
      simp only [skipWs_cons_not_ws _ _ (by decide : isWsChar ',' = false),
        if_pos rfl,
        parseMembersFuel_ws f' '\n' _ (by decide),
        parseMembersFuel_ws f' ' ' _ (by decide)]
      rw [ih (f' + 1) tail (by simp) (by simpa using hlen')]
      rfl

theorem dumpKV_head (kv : String × JVal) :
    ∃ cs, dumpKV kv = dquoteChar :: cs :=
  ⟨(escapeStr kv.1.data ++ [dquoteChar]) ++ ':' :: ' ' :: dumpJVal kv.2, rfl⟩

theorem dumpMembers_cons_head (kv : String × JVal) (kvs : List (String × JVal)) :
    ∃ cs, dumpMembers (kv :: kvs) = dquoteChar :: cs := by
  obtain ⟨cs, h⟩ := dumpKV_head kv
  cases kvs with
  | nil => exact ⟨cs, h⟩
  | cons kv2 kvs' =>
    refine ⟨cs ++ ',' :: '\n' :: ' ' :: ' ' :: dumpMembers (kv2 :: kvs'), ?_⟩
    rw [show dumpMembers (kv :: kv2 :: kvs') =
      dumpKV kv ++ ',' :: '\n' :: ' ' :: ' ' :: dumpMembers (kv2 :: kvs') from rfl, h]
    simp

theorem dumpMembers_length :
    ∀ kvs : List (String × JVal), kvs.length ≤ (dumpMembers kvs).length := by
  intro kvs
  induction kvs with
  | nil => simp [dumpMembers]
  | cons kv kvs' ih =>
    obtain ⟨cs, h⟩ := dumpKV_head kv
    cases kvs' with
    | nil =>
      rw [show dumpMembers [kv] = dumpKV kv from rfl, h]
      simp
    | cons kv2 kvs'' =>
      rw [show dumpMembers (kv :: kv2 :: kvs'') =
        dumpKV kv ++ ',' :: '\n' :: ' ' :: ' ' :: dumpMembers (kv2 :: kvs'') from rfl, h]
      simp only [List.length_cons, List.cons_append, List.length_append]
      simp at ih ⊢
      omega

theorem parseObjTop_dumpObj (kvs : List (String × JVal)) :
    parseObjTop (dumpObj kvs) = some (kvs, []) := by
  cases kvs with
  | nil =>
    rw [show dumpObj [] = [lbraceChar, rbraceChar] from rfl, parseObjTop]
    rw [skipWs_cons_not_ws _ _ (by decide : isWsChar lbraceChar = false)]
    simp only [if_pos rfl]
    rw [skipWs_cons_not_ws _ _ (by decide : isWsChar rbraceChar = false)]
    simp
  | cons kv kvs' =>
    obtain ⟨mcs, hm⟩ := dumpMembers_cons_head kv kvs'
    have hrq : ¬(dquoteChar = rbraceChar) := by decide
    have hX : dumpMembers (kv :: kvs') ++ ['\n', rbraceChar] =
        dumpMembers (kv :: kvs') ++ '\n' :: rbraceChar :: [] := rfl
    rw [show dumpObj (kv :: kvs') =
      lbraceChar :: '\n' :: ' ' :: ' ' ::
        (dumpMembers (kv :: kvs') ++ ['\n', rbraceChar]) from rfl, parseObjTop]
    rw [skipWs_cons_not_ws _ _ (by decide : isWsChar lbraceChar = false)]
    simp only [if_pos rfl]
    rw [skipWs_cons_ws _ _ (by decide : isWsChar '\n' = true),
      skipWs_cons_ws _ _ (by decide : isWsChar ' ' = true),
      skipWs_cons_ws _ _ (by decide : isWsChar ' ' = true)]
    rw [hX, hm]
    simp only [List.cons_append]
    rw [skipWs_cons_not_ws _ _ (by decide : isWsChar dquoteChar = false)]
    simp only [hrq, if_false, if_true]
    rw [← List.cons_append, ← hm]
    have hfuel : (kv :: kvs').length ≤
        ('\n' :: ' ' :: ' ' ::
          (dumpMembers (kv :: kvs') ++ '\n' :: rbraceChar :: [])).length + 1 := by
      have := dumpMembers_length (kv :: kvs')
      simp only [List.length_cons, List.length_append] at this ⊢
      omega
    rw [parseMembersFuel_ws _ '\n' _ (by decide),
      parseMembersFuel_ws _ ' ' _ (by decide),
      parseMembersFuel_ws _ ' ' _ (by decide)]
    exact parseMembersFuel_dumpMembers (kv :: kvs') _ [] (by simp) hfuel

theorem fromPairs_toPairs (t : TokenRecord) : fromPairs (toPairs t) = t := by
  obtain ⟨a, b, c, d, e, f⟩ := t
  rcases a with _ | a <;> rcases b with _ | b <;> rcases c with _ | c <;>
    rcases d with _ | d <;> rcases e with _ | e <;> rcases f with _ | f <;> rfl

/-- C9: saving any token record with `save_tokens` and loading the saved
content back with `load_tokens` reproduces the record exactly — every
field, including the expiry instant, survives the round trip (the store
is modelled at whole-second expiry precision, the documented tolerance;
serialization introduces no further loss). -/
theorem save_load_roundtrip (t : TokenRecord) :
    load_tokens (some (save_tokens t)) = some t := by
  rw [show load_tokens (some (save_tokens t)) = parseTokens (save_tokens t) from rfl,
    parseTokens,
    show (save_tokens t).data = dumpObj (toPairs t) from rfl,
    parseObjTop_dumpObj]
  simp [skipWs, fromPairs_toPairs]

end SpotifyInsights
